import Mathlib

/-! Verification of the core rendering pipeline of the Squish XML snapshot viewer.

The definitions below are a shallow embedding of the Python sources,
principally `build_tree_html`, `parse_object_xml` and `load_asset` as they
appear in `squish_xml_html_gen.py`, `squish_xml_viewer_desktop.py` and
`main_app.py`, together with the JavaScript overlay functions
`updateElementOverlay` / `drawElementOverlay` embedded in the desktop
viewer's HTML template.
-/

namespace SquishViewer

/-- A node of the parsed XML document, mirroring `xml.etree.ElementTree.Element`:
a tag, an insertion-ordered attribute map, optional text, optional tail text and
an ordered list of child elements. -/
inductive XmlNode : Type where
  | mk (tag : String) (attrib : List (String × String)) (text : Option String)
       (tail : Option String) (children : List XmlNode)

def XmlNode.tag : XmlNode → String
  | .mk t _ _ _ _ => t

def XmlNode.attrib : XmlNode → List (String × String)
  | .mk _ a _ _ _ => a

def XmlNode.text : XmlNode → Option String
  | .mk _ _ tx _ _ => tx

def XmlNode.tail : XmlNode → Option String
  | .mk _ _ _ tl _ => tl

def XmlNode.children : XmlNode → List XmlNode
  | .mk _ _ _ _ cs => cs

/-- Model of `element.findall(tag)` on a plain tag: all direct children with that tag,
in document order. -/
def findallTag (n : XmlNode) (t : String) : List XmlNode :=
  n.children.filter (fun c => c.tag == t)

/-- Model of `element.find(tag)` on a plain tag: the first direct child with that tag. -/
def findTag (n : XmlNode) (t : String) : Option XmlNode :=
  n.children.find? (fun c => c.tag == t)

/-- Model of `element.find(t1 + "/" + t2)`: the first element obtained by taking,
for each direct `t1` child in order, its direct `t2` children in order. -/
def findPath2 (n : XmlNode) (t1 t2 : String) : Option XmlNode :=
  ((findallTag n t1).flatMap (fun m => findallTag m t2)).head?

/-- Model of `element.attrib.get(k)`. -/
def lookupAttr (n : XmlNode) (k : String) : Option String :=
  (n.attrib.find? (fun p => p.1 == k)).map (fun p => p.2)

/-! Section: Insertion-ordered property maps (Python `dict` semantics) -/

/-- Assignment `d[k] = v` on a Python dict represented as an insertion-ordered
association list: an existing key keeps its position and gets the new value,
a new key is appended at the end. -/
def insertProp (m : List (String × String)) (k v : String) : List (String × String) :=
  if m.any (fun p => p.1 == k) then
    m.map (fun p => if p.1 == k then (k, v) else p)
  else
    m ++ [(k, v)]

/-- A sequence of dict writes, applied left to right. -/
def insertAll (m : List (String × String)) (ws : List (String × String)) :
    List (String × String) :=
  ws.foldl (fun acc p => insertProp acc p.1 p.2) m

/-- Lookup `d.get(k)` / `d[k]`. -/
def lookupProp (m : List (String × String)) (k : String) : Option String :=
  (m.find? (fun p => p.1 == k)).map (fun p => p.2)

/-- The value of the last write with key `k` in a write sequence, if any:
a later write shadows every earlier write to the same key. -/
def lastWriteValue : List (String × String) → String → Option String
  | [], _ => none
  | p :: ws, k =>
    match lastWriteValue ws k with
    | some v => some v
    | none => if p.1 == k then some p.2 else none

/-! Section: The property extractor of `build_tree_html` (lines 60–97 of
`squish_xml_html_gen.py`), clause by clause. Each clause is rendered as the
list of dict writes it performs, in the order the Python code performs them. -/

/-- Model of `properties.update(node.attrib)`. -/
def attribWrites (n : XmlNode) : List (String × String) :=
  n.attrib

/-- The `realname` clause: present and truthy text gets stripped and stored
under key `"realname"`. -/
def realnameWrites (n : XmlNode) : List (String × String) :=
  match findTag n "realname" with
  | some r =>
    match r.text with
    | some t => if t == "" then [] else [("realname", t.trim)]
    | none => []
  | none => []

/-- The `superclass` clause: the truthy texts of the `class` children joined
with `" > "` under key `"superclasses"`, skipped when no such text exists. -/
def superclassWrites (n : XmlNode) : List (String × String) :=
  match findTag n "superclass" with
  | some sc =>
    let classes := (findallTag sc "class").filterMap (fun c =>
      match c.text with
      | some t => if t == "" then none else some t
      | none => none)
    if classes.isEmpty then [] else [("superclasses", String.intercalate " > " classes)]
  | none => []

/-- The `abstractProperties/geometry` clause: each of `x`, `y`, `width`,
`height` with truthy text is stored under `geometry_<coord>`. -/
def geometryWrites (n : XmlNode) : List (String × String) :=
  match findPath2 n "abstractProperties" "geometry" with
  | some g =>
    ["x", "y", "width", "height"].flatMap (fun coord =>
      match findTag g coord with
      | some ce =>
        match ce.text with
        | some t => if t == "" then [] else [("geometry_" ++ coord, t)]
        | none => []
      | none => [])
  | none => []

/-- The `abstractProperties/visual` clause: every attribute of the `visual`
element is stored under `visual_<name>`. -/
def visualWrites (n : XmlNode) : List (String × String) :=
  match findPath2 n "abstractProperties" "visual" with
  | some v => v.attrib.map (fun p => ("visual_" ++ p.1, p.2))
  | none => []

/-- The `properties/property` clause: each `property` child is stored under
its `name` attribute (default `""`), with the text of a nested `string`
child as value (`""` when the child or its text is absent). -/
def propertyListWrites (n : XmlNode) : List (String × String) :=
  match findTag n "properties" with
  | some pe =>
    (findallTag pe "property").map (fun p =>
      ((lookupAttr p "name").getD "",
       match findTag p "string" with
       | some s => s.text.getD ""
       | none => ""))
  | none => []

/-- All writes performed on `properties`, in the order of the Python clauses:
XML attributes, `realname`, `superclasses`, geometry, visual, properties list. -/
def propWrites (n : XmlNode) : List (String × String) :=
  attribWrites n ++ realnameWrites n ++ superclassWrites n ++
    geometryWrites n ++ visualWrites n ++ propertyListWrites n

/-- The flattened property map of one element: the sequential dict updates of
`build_tree_html`, starting from the empty dict. -/
def extractProps (n : XmlNode) : List (String × String) :=
  let p := insertAll [] (attribWrites n)
  let p := insertAll p (realnameWrites n)
  let p := insertAll p (superclassWrites n)
  let p := insertAll p (geometryWrites n)
  let p := insertAll p (visualWrites n)
  insertAll p (propertyListWrites n)

/-- The display label of one element (lines 42–57 of `squish_xml_html_gen.py`),
with Python string truthiness made explicit. -/
def labelOf (n : XmlNode) : String :=
  let simplifiedType := (lookupAttr n "simplifiedType").getD ""
  let objectName := (lookupAttr n "objectName").getD ""
  let className := (lookupAttr n "class").getD ""
  if simplifiedType ≠ "" then
    if objectName ≠ "" then simplifiedType ++ " (" ++ objectName ++ ")" else simplifiedType
  else if objectName ≠ "" then n.tag ++ " (" ++ objectName ++ ")"
  else if className ≠ "" then n.tag ++ " (" ++ className ++ ")"
  else n.tag

/-- The direct `element`-tagged children of a node. -/
def elementChildren (n : XmlNode) : List XmlNode :=
  n.children.filter (fun c => c.tag == "element")

/-- Child discovery of `build_tree_html` (lines 103–110): the `element`
children of a `children` wrapper when one exists, else the node's own direct
`element` children. -/
def renderChildren (n : XmlNode) : List XmlNode :=
  match findTag n "children" with
  | some w => findallTag w "element"
  | none => elementChildren n

/-! Section: Size lemmas for the recursion through `renderChildren` -/

theorem sizeOf_children_lt (n : XmlNode) : sizeOf n.children < sizeOf n := by
  cases n with
  | mk t a tx tl cs => simp only [XmlNode.children, XmlNode.mk.sizeOf_spec]; omega

theorem sizeOf_mem_children_lt {x : XmlNode} {n : XmlNode} (h : x ∈ n.children) :
    sizeOf x < sizeOf n :=
  lt_trans (List.sizeOf_lt_of_mem h) (sizeOf_children_lt n)

theorem sizeOf_filter_le (p : XmlNode → Bool) (l : List XmlNode) :
    sizeOf (l.filter p) ≤ sizeOf l := by
  induction l with
  | nil => simp
  | cons x xs ih =>
    rw [List.filter_cons]
    by_cases h : p x = true <;> simp [h] <;> omega

theorem sizeOf_renderChildren_lt (n : XmlNode) : sizeOf (renderChildren n) < sizeOf n := by
  unfold renderChildren
  cases hf : findTag n "children" with
  | some w =>
    have hw : w ∈ n.children := List.mem_of_find?_eq_some hf
    have h1 : sizeOf (findallTag w "element") ≤ sizeOf w.children :=
      sizeOf_filter_le _ _
    have h2 : sizeOf w.children < sizeOf w := sizeOf_children_lt w
    have h3 : sizeOf w < sizeOf n := sizeOf_mem_children_lt hw
    simp only []
    omega
  | none =>
    have h1 : sizeOf (elementChildren n) ≤ sizeOf n.children := sizeOf_filter_le _ _
    have h2 : sizeOf n.children < sizeOf n := sizeOf_children_lt n
    simp only []
    omega

/-! Section: Serialization: `ET.tostring(node, encoding='unicode')` -/

/-- Model of `xml.etree.ElementTree._escape_attrib` applied to one character. -/
def escChar (c : Char) : List Char :=
  if c = '&' then "&amp;".toList
  else if c = '<' then "&lt;".toList
  else if c = '>' then "&gt;".toList
  else if c = '"' then "&quot;".toList
  else if c = '\r' then "&#13;".toList
  else if c = '\n' then "&#10;".toList
  else if c = '\t' then "&#09;".toList
  else [c]

/-- Attribute-value escaping. -/
def escAttrib : List Char → List Char
  | [] => []
  | c :: r => escChar c ++ escAttrib r

/-- Model of `xml.etree.ElementTree._escape_cdata` applied to one character. -/
def escCdataChar (c : Char) : List Char :=
  if c = '&' then "&amp;".toList
  else if c = '<' then "&lt;".toList
  else if c = '>' then "&gt;".toList
  else [c]

/-- Text-content escaping. -/
def escCdata : List Char → List Char
  | [] => []
  | c :: r => escCdataChar c ++ escCdata r

/-- Text content of an optional text field; ET writes nothing for a missing
or empty (falsy) text. -/
def escCdataOpt : Option String → List Char
  | some s => escCdata s.toList
  | none => []

/-- One serialized attribute is ` name="escaped-value"`. -/
def serializeAttrs : List (List Char × List Char) → List Char
  | [] => []
  | (k, v) :: r => ' ' :: (k ++ '=' :: '"' :: (escAttrib v ++ '"' :: serializeAttrs r))

/-- The attribute list of a node as character lists, in document order. -/
def attribChars (n : XmlNode) : List (List Char × List Char) :=
  n.attrib.map (fun p => (p.1.toList, p.2.toList))

/-- Python string truthiness of an optional text. -/
def truthyText : Option String → Bool
  | some t => t != ""
  | none => false

mutual
/-- Model of `ET.tostring` applied to one element: the opening tag with escaped attributes,
then either the short empty-element form ` />` or the escaped text, the
serialized children and the closing tag; the element's tail is appended. -/
def serializeElem (n : XmlNode) : List Char :=
  ('<' :: n.tag.toList ++ serializeAttrs (attribChars n)) ++
  (if truthyText n.text = false ∧ n.children.isEmpty = true then
    [' ', '/', '>']
  else
    '>' :: (escCdataOpt n.text ++ serializeForest n.children ++
      ('<' :: '/' :: n.tag.toList ++ ['>']))) ++
  escCdataOpt n.tail
termination_by sizeOf n
decreasing_by exact sizeOf_children_lt n

/-- Serialization of a list of sibling elements, in order. -/
def serializeForest : List XmlNode → List Char
  | [] => []
  | x :: xs => serializeElem x ++ serializeForest xs
termination_by l => sizeOf l
decreasing_by all_goals (simp; try omega)
end

/-! Section: The render tree -/

/-- The renderable node derived from one source element: the assigned counter
value, the display label, the flattened property map, the serialized XML
fragment (`data-xml`) and the rendered children. -/
inductive RenderNode : Type where
  | mk (id : Nat) (label : String) (props : List (String × String))
       (rawXml : List Char) (children : List RenderNode)

def RenderNode.id : RenderNode → Nat
  | .mk i _ _ _ _ => i

def RenderNode.label : RenderNode → String
  | .mk _ l _ _ _ => l

def RenderNode.props : RenderNode → List (String × String)
  | .mk _ _ p _ _ => p

def RenderNode.rawXml : RenderNode → List Char
  | .mk _ _ _ x _ => x

def RenderNode.children : RenderNode → List RenderNode
  | .mk _ _ _ _ cs => cs

mutual
/-- Model of `build_tree_html(node, counter)`: the shared mutable counter is made an
explicit state argument.  The current node takes the counter value as `id`,
the counter is incremented, then the children are rendered left to right.
The returned `Nat` is `counter["i"]` at return time. -/
def buildTree (n : XmlNode) (c : Nat) : RenderNode × Nat :=
  (RenderNode.mk c (labelOf n) (extractProps n) (serializeElem n)
     (buildForest (renderChildren n) (c + 1)).1,
   (buildForest (renderChildren n) (c + 1)).2)
termination_by sizeOf n
decreasing_by all_goals exact sizeOf_renderChildren_lt n

/-- The `for child in children` loop of `build_tree_html`, threading the
counter left to right. -/
def buildForest : List XmlNode → Nat → List RenderNode × Nat
  | [], c => ([], c)
  | x :: xs, c =>
    ((buildTree x c).1 :: (buildForest xs (buildTree x c).2).1,
     (buildForest xs (buildTree x c).2).2)
termination_by l _ => sizeOf l
decreasing_by all_goals (simp; try omega)
end

/-- Model of `build_tree_html(node)` with `counter=None`: a fresh counter starting
at 1 is allocated. -/
def runRenderer (n : XmlNode) : RenderNode × Nat :=
  buildTree n 1

mutual
/-- The `id` values of a render tree in depth-first pre-order. -/
def idsPre : RenderNode → List Nat
  | .mk i _ _ _ cs => i :: idsForest cs
termination_by r => sizeOf r
decreasing_by all_goals (simp; try omega)

def idsForest : List RenderNode → List Nat
  | [] => []
  | x :: xs => idsPre x ++ idsForest xs
termination_by l => sizeOf l
decreasing_by all_goals (simp; try omega)
end

mutual
/-- The number of nodes of a render tree. -/
def countR : RenderNode → Nat
  | .mk _ _ _ _ cs => 1 + countForest cs
termination_by r => sizeOf r
decreasing_by all_goals (simp; try omega)

def countForest : List RenderNode → Nat
  | [] => 0
  | x :: xs => countR x + countForest xs
termination_by l => sizeOf l
decreasing_by all_goals (simp; try omega)
end

/-! Section: The overlay mapper (JavaScript `updateElementOverlay` /
`drawElementOverlay` in the desktop template, lines 467–559 of
`squish_xml_viewer_desktop.py`) -/

/-- A hexadecimal digit as accepted by JavaScript `parseInt` with a `0x`
prefix. -/
def isHexDigit (c : Char) : Bool :=
  c.isDigit || ('a' ≤ c && c ≤ 'f') || ('A' ≤ c && c ≤ 'F')

def hexDigitValue (c : Char) : Nat :=
  if c.isDigit then c.toNat - '0'.toNat
  else if 'a' ≤ c && c ≤ 'f' then c.toNat - 'a'.toNat + 10
  else if 'A' ≤ c && c ≤ 'F' then c.toNat - 'A'.toNat + 10
  else 0

/-- JavaScript `parseInt(s)` (radix unspecified): leading whitespace is
skipped, an optional sign is read, a `0x`/`0X` prefix selects base 16, the
longest digit prefix is converted, and the absence of any digit gives `NaN`,
modeled as `none`. -/
def jsParseIntCore (cs0 : List Char) : Option Int :=
  let cs1 := cs0.dropWhile Char.isWhitespace
  let signNeg : Bool := match cs1 with
    | '-' :: _ => true
    | _ => false
  let cs2 : List Char := match cs1 with
    | '-' :: r => r
    | '+' :: r => r
    | r => r
  let hex : Bool := match cs2 with
    | '0' :: 'x' :: _ => true
    | '0' :: 'X' :: _ => true
    | _ => false
  let cs3 : List Char := if hex then cs2.drop 2 else cs2
  let digits := if hex then cs3.takeWhile isHexDigit else cs3.takeWhile Char.isDigit
  if digits.isEmpty then none
  else
    let v : Nat := digits.foldl (fun acc d => acc * (if hex then 16 else 10) + hexDigitValue d) 0
    some (if signNeg then -(v : Int) else (v : Int))

def jsParseInt (s : String) : Option Int := jsParseIntCore s.toList

/-- Model of `parseInt(x) || 0`: `NaN` (and an absent value) collapses to `0`. -/
def jsParseIntOr0 (o : Option String) : Int :=
  match o with
  | some s => (jsParseInt s).getD 0
  | none => 0

/-- The lazy screenshot-geometry resolution (lines 491–513): scan the
document-order list of per-node property maps for the first one whose
`geometry_x` is present, and take `(parseInt(x)||0, parseInt(y)||0)`;
fall back to `(0, 0)`. -/
def resolveOrigin (allNodes : List (List (String × String))) : Int × Int :=
  match allNodes.find? (fun p => (lookupProp p "geometry_x").isSome) with
  | some p => (jsParseIntOr0 (lookupProp p "geometry_x"), jsParseIntOr0 (lookupProp p "geometry_y"))
  | none => (0, 0)

/-- Model of `updateElementOverlay` (lines 467–525): an overlay is produced exactly
when all four `geometry_*` keys are present in the selected node's property
map; its raw rectangle is `(parseInt(x) - originX, parseInt(y) - originY,
parseInt(w), parseInt(h))`, where a `NaN` from `parseInt` is modeled as
`none` and propagates through the subtraction. -/
def updateElementOverlay (props : List (String × String))
    (allNodes : List (List (String × String))) :
    Option (Option Int × Option Int × Option Int × Option Int) :=
  match lookupProp props "geometry_x", lookupProp props "geometry_y",
        lookupProp props "geometry_width", lookupProp props "geometry_height" with
  | some ex, some ey, some ew, some eh =>
    let sg := resolveOrigin allNodes
    some ((jsParseInt ex).map (fun v => v - sg.1),
          (jsParseInt ey).map (fun v => v - sg.2),
          jsParseInt ew, jsParseInt eh)
  | _, _, _, _ => none

/-- Model of `drawElementOverlay` (lines 527–559): the raw rectangle scaled
independently on each axis by `displayedSize / naturalSize`. -/
def drawElementOverlay (x y w h : Option Int) (dispW natW dispH natH : ℚ) :
    Option ℚ × Option ℚ × Option ℚ × Option ℚ :=
  let scaleX := dispW / natW
  let scaleY := dispH / natH
  (x.map (fun v => (v : ℚ) * scaleX), y.map (fun v => (v : ℚ) * scaleY),
   w.map (fun v => (v : ℚ) * scaleX), h.map (fun v => (v : ℚ) * scaleY))

/-! Section: The XML loader's reading phase (`parse_object_xml`, lines 7–26 of
`squish_xml_html_gen.py`) -/

/-- Decode one UTF-8 scalar value from the head of a byte list, returning the
character and the number of bytes consumed; `none` on any malformed sequence
(continuation errors, overlong forms, surrogates, out-of-range). -/
def utf8DecodeOneLen : List Nat → Option (Char × Nat)
  | [] => none
  | b :: r =>
    if b < 0x80 then some (Char.ofNat b, 1)
    else if 0xC2 ≤ b ∧ b ≤ 0xDF then
      match r with
      | b2 :: _ =>
        if 0x80 ≤ b2 ∧ b2 ≤ 0xBF then
          some (Char.ofNat ((b - 0xC0) * 64 + (b2 - 0x80)), 2)
        else none
      | [] => none
    else if 0xE0 ≤ b ∧ b ≤ 0xEF then
      match r with
      | b2 :: b3 :: _ =>
        if (if b = 0xE0 then 0xA0 else 0x80) ≤ b2 ∧ b2 ≤ (if b = 0xED then 0x9F else 0xBF) ∧
            0x80 ≤ b3 ∧ b3 ≤ 0xBF then
          some (Char.ofNat ((b - 0xE0) * 4096 + (b2 - 0x80) * 64 + (b3 - 0x80)), 3)
        else none
      | _ => none
    else if 0xF0 ≤ b ∧ b ≤ 0xF4 then
      match r with
      | b2 :: b3 :: b4 :: _ =>
        if (if b = 0xF0 then 0x90 else 0x80) ≤ b2 ∧ b2 ≤ (if b = 0xF4 then 0x8F else 0xBF) ∧
            0x80 ≤ b3 ∧ b3 ≤ 0xBF ∧ 0x80 ≤ b4 ∧ b4 ≤ 0xBF then
          some (Char.ofNat ((b - 0xF0) * 262144 + (b2 - 0x80) * 4096 + (b3 - 0x80) * 64 + (b4 - 0x80)), 4)
        else none
      | _ => none
    else none

/-- Strict UTF-8 decoding, as performed by `open(path, "r", encoding="utf-8")`
with the default error handler: any malformed sequence raises
`UnicodeDecodeError`, modeled as `none`.  The fuel argument is the byte
count, which bounds the number of decoded characters. -/
def utf8StrictAux : Nat → List Nat → Option (List Char)
  | _, [] => some []
  | 0, _ :: _ => none
  | fuel + 1, b :: r =>
    match utf8DecodeOneLen (b :: r) with
    | some (c, k) => (utf8StrictAux fuel ((b :: r).drop k)).map (fun cs => c :: cs)
    | none => none

def utf8DecodeStrict (file : List Nat) : Option (List Char) :=
  utf8StrictAux file.length file

/-- Modelled from the spec: the spec's loader contract says the file is read
"as UTF-8 text (malformed bytes replaced, not fatal)", i.e. with
`errors="replace"`, substituting U+FFFD for undecodable bytes and never
failing.  No source file uses replace-mode decoding in `parse_object_xml`;
this definition exists only to exhibit what the claimed behavior would
produce. -/
def specReplaceAux : Nat → List Nat → List Char
  | 0, _ => []
  | _ + 1, [] => []
  | fuel + 1, b :: r =>
    match utf8DecodeOneLen (b :: r) with
    | some (c, k) => c :: specReplaceAux fuel ((b :: r).drop k)
    | none => Char.ofNat 0xFFFD :: specReplaceAux fuel r

def specReplaceDecode (file : List Nat) : List Char :=
  specReplaceAux file.length file

/-- Test whether the second list starts with the first. -/
def leadsWith : List Char → List Char → Bool
  | [], _ => true
  | _ :: _, [] => false
  | a :: as', b :: bs => a == b && leadsWith as' bs

/-- Model of `str.find(needle)`: index of the first occurrence, `None` for Python's
`-1`. -/
def strFind : List Char → List Char → Option Nat
  | [], needle => if leadsWith needle [] then some 0 else none
  | h :: t, needle =>
    if leadsWith needle (h :: t) then some 0
    else (strFind t needle).map (fun i => i + 1)

/-- Lines 13–19 of `parse_object_xml`: look for `"<ui"`, falling back to
`"<"`; when the index is positive, everything before it is discarded. -/
def stripPreamble (content : List Char) : List Char :=
  let xmlStart : Option Nat :=
    match strFind content ['<', 'u', 'i'] with
    | some i => some i
    | none => strFind content ['<']
  match xmlStart with
  | some i => if 0 < i then content.drop i else content
  | none => content

/-- The reading phase of `parse_object_xml` applied to raw file bytes: strict
UTF-8 decoding (a `UnicodeDecodeError` is caught by the same `except` clause
as XML parse errors, so the whole load returns `None`), then preamble
stripping.  The subsequent `ET.fromstring` call is outside this model. -/
def parseObjectXmlRead (file : List Nat) : Option (List Char) :=
  (utf8DecodeStrict file).map stripPreamble

/-! Section: Asset loading (`main_app.py`, lines 114–179) -/

def pyPathJoin (a b : String) : String := a ++ "/" ++ b

/-- Model of `load_asset` from `main_app.py`: the file system is modeled as a partial
map from paths to contents; a missing file raises `FileNotFoundError` with
the message `"Asset file not found: <path>"`, modeled as `Except.error`. -/
def load_asset (fs : String → Option String) (scriptDir fileName : String) :
    Except String String :=
  match fs (pyPathJoin scriptDir fileName) with
  | some content => Except.ok content
  | none => Except.error ("Asset file not found: " ++ pyPathJoin scriptDir fileName)

/-- The three `load_asset` calls of `generate_html_from_xml`, in order; the
first failure propagates (`FileNotFoundError` unwinds to the handler). -/
def loadViewerAssets (fs : String → Option String) (scriptDir : String) :
    Except String (String × String × String) := do
  let t ← load_asset fs scriptDir "viewer_template.html"
  let c ← load_asset fs scriptDir "viewer_styles.css"
  let j ← load_asset fs scriptDir "viewer_scripts.js"
  return (t, c, j)

/-- The asset phase and template assembly of `generate_html_from_xml`
(`main_app.py` lines 160–179): a missing asset file surfaces as an error
page carrying the exception text; otherwise the template is assembled with
`str.replace`.  The values computed before this phase (title, tree HTML,
screenshot fragment, raw XML, whitelist JSON) are parameters. -/
def generateHtmlFromXmlAssets (fs : String → Option String) (scriptDir : String)
    (whitelistJson title treeHtml screenshotImg rawXml : String) : String :=
  match loadViewerAssets fs scriptDir with
  | Except.error e => "<h1>Error: " ++ e ++ "</h1>"
  | Except.ok (t, c, j) =>
    let t := t.replace "{WHITELIST}" whitelistJson
    let t := t.replace "<link rel=\"stylesheet\" href=\"viewer_styles.css\">"
      ("<style>" ++ c ++ "</style>")
    let t := t.replace "<script src=\"viewer_scripts.js\"></script>"
      ("<script>" ++ j ++ "</script>")
    let t := t.replace "{TITLE}" title
    let t := t.replace "{TREE_HTML}" treeHtml
    let t := t.replace "{SCREENSHOT_IMG}" screenshotImg
    let t := t.replace "{SCREENSHOT_NAME}" "Screenshot"
    t.replace "{RAW_XML}" rawXml

/-! Section: Re-parsing a serialized fragment: the opening tag

A serialized fragment fed back to `ET.fromstring` gets its root tag and
attributes from the opening tag; the model below parses exactly that part:
`<`, the tag name up to a delimiter, then ` name="value"` attributes with
entity unescaping, stopping at `>` or `/>`. -/

/-- The entity references produced by `_escape_attrib`, as recognized when
re-parsing an attribute value (the character they denote and the length of
the reference after the `&`). -/
def matchEntity : List Char → Option (Char × Nat)
  | 'a' :: 'm' :: 'p' :: ';' :: _ => some ('&', 4)
  | 'l' :: 't' :: ';' :: _ => some ('<', 3)
  | 'g' :: 't' :: ';' :: _ => some ('>', 3)
  | 'q' :: 'u' :: 'o' :: 't' :: ';' :: _ => some ('"', 5)
  | '#' :: '1' :: '3' :: ';' :: _ => some ('\r', 4)
  | '#' :: '1' :: '0' :: ';' :: _ => some ('\n', 4)
  | '#' :: '0' :: '9' :: ';' :: _ => some ('\t', 4)
  | _ => none

/-- Entity unescaping of an attribute value. -/
def unescAux : List Char → List Char
  | [] => []
  | c :: r =>
    if c = '&' then
      match matchEntity r with
      | some (ch, k) => ch :: unescAux (r.drop k)
      | none => '&' :: unescAux r
    else c :: unescAux r
termination_by l => l.length
decreasing_by all_goals (simp; try omega)

/-- Attribute-list scanning after the tag name: skip spaces, stop at `/` or
`>`, otherwise read `name="value"` and unescape the value.  The fuel
argument makes the recursion structural; `parseAttrs` supplies enough. -/
def parseAttrsF : Nat → List Char → Option (List (List Char × List Char))
  | 0, _ => none
  | _ + 1, [] => none
  | fuel + 1, c :: r =>
    if c = ' ' then parseAttrsF fuel r
    else if c = '/' ∨ c = '>' then some []
    else
      match (c :: r).dropWhile (fun ch => !(ch == '=')) with
      | '=' :: '"' :: r2 =>
        match r2.dropWhile (fun ch => !(ch == '"')) with
        | '"' :: r4 =>
          (parseAttrsF fuel r4).map (fun rest =>
            ((c :: r).takeWhile (fun ch => !(ch == '=')),
             unescAux (r2.takeWhile (fun ch => !(ch == '"')))) :: rest)
        | _ => none
      | _ => none

def parseAttrs (l : List Char) : Option (List (List Char × List Char)) :=
  parseAttrsF (2 * l.length + 2) l

/-- A character that ends tag-name scanning. -/
def nameDelim (c : Char) : Bool := c == ' ' || c == '>' || c == '/'

/-- Parse the opening tag of a serialized element: its tag name and its
attribute list. -/
def parseOpenTag (l : List Char) : Option (List Char × List (List Char × List Char)) :=
  match l with
  | '<' :: r =>
    let name := r.takeWhile (fun c => !(nameDelim c))
    let rest := r.dropWhile (fun c => !(nameDelim c))
    if name.isEmpty then none
    else (parseAttrs rest).map (fun as => (name, as))
  | _ => none

/-- A valid XML name as needed for the round-trip: nonempty and free of the
structural delimiter characters, which the XML grammar excludes from names. -/
abbrev nameOk (cs : List Char) : Prop :=
  cs ≠ [] ∧ ∀ c ∈ cs, c ≠ ' ' ∧ c ≠ '>' ∧ c ≠ '/' ∧ c ≠ '=' ∧ c ≠ '"' ∧ c ≠ '<'

mutual
/-- Structural identity of render trees: same `id`, same label, same property
map (same keys, values and order), same raw XML fragment, and structurally
identical children in the same order. -/
def structIdentical : RenderNode → RenderNode → Bool
  | .mk i1 l1 p1 x1 c1, .mk i2 l2 p2 x2 c2 =>
    i1 == i2 && l1 == l2 && p1 == p2 && x1 == x2 && structIdenticalList c1 c2
termination_by a _ => sizeOf a
decreasing_by all_goals (simp; try omega)

def structIdenticalList : List RenderNode → List RenderNode → Bool
  | [], [] => true
  | a :: as', b :: bs => structIdentical a b && structIdenticalList as' bs
  | _, _ => false
termination_by l _ => sizeOf l
decreasing_by all_goals (simp; try omega)
end

/-! Section: Concrete example inputs used by the claims -/

/-- An element carrying the XML attribute `geometry_x="1"` together with a
nested `abstractProperties/geometry/x` whose text is `"2"`. -/
def collideNode : XmlNode :=
  .mk "element" [("geometry_x", "1")] none none
    [.mk "abstractProperties" [] none none
      [.mk "geometry" [] none none
        [.mk "x" [] (some "2") none []]]]

/-- An element whose `properties` child holds two `property` entries without
a `name` attribute, with `string` texts `v1` and `v2`. -/
def unnamedPropNode (v1 v2 : String) : XmlNode :=
  .mk "element" [] none none
    [.mk "properties" [] none none
      [.mk "property" [] none none [.mk "string" [] (some v1) none []],
       .mk "property" [] none none [.mk "string" [] (some v2) none []]]]

/-- An element with one unnamed `properties/property` entry that has no
`string` child. -/
def unnamedNoString : XmlNode :=
  .mk "element" [] none none
    [.mk "properties" [] none none
      [.mk "property" [] none none []]]

/-- Flattened property map of the overlay example's selected node. -/
def exSelProps : List (String × String) :=
  [("geometry_x", "110"), ("geometry_y", "210"),
   ("geometry_width", "50"), ("geometry_height", "20")]

/-- Flattened property map of the overlay example's first (origin) node. -/
def exOriginProps : List (String × String) :=
  [("geometry_x", "100"), ("geometry_y", "200")]

/-- All four geometry keys present, but the width value does not parse as an
integer. -/
def badWidthProps : List (String × String) :=
  [("geometry_x", "10"), ("geometry_y", "10"),
   ("geometry_width", "abc"), ("geometry_height", "20")]

/-- One invalid UTF-8 byte (0xFF) followed by the ASCII bytes of a perfectly
well-formed XML document. -/
def badUtf8File : List Nat :=
  255 :: ("<ui></ui>".toList.map Char.toNat)

/-- A source element whose serialization exercises attribute escaping. -/
def rtNode : XmlNode :=
  .mk "element" [("class", "A&B \"q\""), ("objectName", "ok<Btn>")]
    (some "txt") (some "tl")
    [.mk "child" [] none none []]

/-! Theorems begin here.

### Python dict semantics: lookup after a write sequence -/

theorem lookupProp_nil (k : String) : lookupProp [] k = none := rfl

theorem lookupProp_cons (a : String × String) (tl : List (String × String)) (k : String) :
    lookupProp (a :: tl) k = if a.1 == k then some a.2 else lookupProp tl k := by
  cases h : a.1 == k with
  | true => simp [lookupProp, List.find?, h]
  | false => simp [lookupProp, List.find?, h]

theorem lookupProp_replace (m : List (String × String)) (k' v k : String) :
    lookupProp (m.map (fun p => if p.1 == k' then (k', v) else p)) k =
      if k = k' then (if m.any (fun p => p.1 == k') then some v else none)
      else lookupProp m k := by
  induction m with
  | nil => simp [lookupProp_nil]
  | cons a tl ih =>
    rw [List.map_cons, lookupProp_cons, lookupProp_cons, List.any_cons, ih]
    by_cases h1 : a.1 = k' <;> by_cases h2 : k = k'
    · simp [h1, h2]
    · have h2' : k' ≠ k := fun he => h2 he.symm
      simp [h1, h2, h2']
    · have h1' : (a.1 == k') = false := by simp [h1]
      have h3 : ¬a.1 = k := fun he => h1 (he.trans h2)
      simp only [h2, h3, if_true, if_pos]
      cases h : tl.any (fun p => p.1 == k') <;> simp [h, h1', h3]
    · simp [h1, h2]

theorem lookupProp_append_one (m : List (String × String)) (k' v k : String)
    (hnone : m.any (fun p => p.1 == k') = false) :
    lookupProp (m ++ [(k', v)]) k = if k = k' then some v else lookupProp m k := by
  induction m with
  | nil =>
    by_cases h2 : k = k' <;> simp [lookupProp_cons, lookupProp_nil, h2, Ne.symm]
  | cons a tl ih =>
    simp only [List.any_cons, Bool.or_eq_false_iff] at hnone
    obtain ⟨ha, htl⟩ := hnone
    rw [List.cons_append, lookupProp_cons, lookupProp_cons, ih htl]
    by_cases h3 : a.1 = k
    · have hkk : k ≠ k' := by
        intro he
        apply absurd ha
        simp [h3, he]
      simp [h3, hkk]
    · simp [h3]

theorem lookupProp_insertProp (m : List (String × String)) (k' v k : String) :
    lookupProp (insertProp m k' v) k = if k = k' then some v else lookupProp m k := by
  unfold insertProp
  cases hany : m.any (fun p => p.1 == k') with
  | true =>
    rw [if_pos (by simp [hany]), lookupProp_replace]
    by_cases h2 : k = k' <;> simp [h2, hany]
  | false =>
    rw [if_neg (by simp [hany])]
    exact lookupProp_append_one m k' v k hany

theorem lookupProp_insertAll (ws : List (String × String))
    (m : List (String × String)) (k : String) :
    lookupProp (insertAll m ws) k =
      match lastWriteValue ws k with
      | some v => some v
      | none => lookupProp m k := by
  induction ws generalizing m with
  | nil => simp [insertAll, lastWriteValue]
  | cons a tl ih =>
    rw [show insertAll m (a :: tl) = insertAll (insertProp m a.1 a.2) tl from rfl, ih]
    cases hl : lastWriteValue tl k with
    | some v => simp [lastWriteValue, hl]
    | none =>
      rw [lookupProp_insertProp]
      by_cases h2 : k = a.1
      · subst h2
        simp [lastWriteValue, hl]
      · have h3 : ¬(a.1 = k) := fun he => h2 he.symm
        simp [lastWriteValue, hl, h2, h3]

theorem extractProps_eq_writes (n : XmlNode) :
    extractProps n = insertAll [] (propWrites n) := by
  simp [extractProps, propWrites, insertAll, List.foldl_append]

/-- Claim C1: the flattened property map is the result of the six merge steps
applied in the fixed order (XML attributes, `realname`, `superclasses`,
geometry, visual, properties list); for every key the value in the final map
is the value of the last write to that key (last write wins, no error).
In particular an element with XML attribute `geometry_x="1"` and a nested
`abstractProperties/geometry/x` of text `"2"` ends up with
`properties["geometry_x"] = "2"`. -/
theorem claim1_property_merge_last_write_wins :
    (∀ (n : XmlNode) (k : String),
        lookupProp (extractProps n) k = lastWriteValue (propWrites n) k) ∧
    lookupProp (extractProps collideNode) "geometry_x" = some "2" := by
  constructor
  · intro n k
    rw [extractProps_eq_writes, lookupProp_insertAll]
    cases hl : lastWriteValue (propWrites n) k <;> simp [hl, lookupProp_nil]
  · rfl

/-- Claim C3: child discovery uses exactly one of two sources, never both: when
a direct `children` wrapper exists, the rendered children are that wrapper's
direct `element`-tagged children; otherwise they are the node's own direct
`element`-tagged children. -/
theorem claim3_child_discovery_single_source :
    ∀ n : XmlNode,
      (∃ w, findTag n "children" = some w ∧
        renderChildren n = w.children.filter (fun c => c.tag == "element")) ∨
      (findTag n "children" = none ∧
        renderChildren n = n.children.filter (fun c => c.tag == "element")) := by
  intro n
  cases h : findTag n "children" with
  | some w => exact Or.inl ⟨w, rfl, by simp [renderChildren, h, findallTag]⟩
  | none => exact Or.inr ⟨rfl, by simp [renderChildren, h, elementChildren]⟩

/-! Section: Ids of the render tree (claim C2) -/

theorem range1_append (s k m : Nat) :
    List.range' s k ++ List.range' (s + k) m = List.range' s (k + m) := by
  have h := List.range'_append s k m 1
  simp only [Nat.one_mul, one_mul] at h
  rw [Nat.add_comm k m]
  exact h

mutual
theorem buildTree_ids_spec (n : XmlNode) (c : Nat) :
    idsPre (buildTree n c).1 = List.range' c (countR (buildTree n c).1) ∧
    (buildTree n c).2 = c + countR (buildTree n c).1 := by
  have h := buildForest_ids_spec (renderChildren n) (c + 1)
  simp only [buildTree, idsPre, countR]
  constructor
  · rw [h.1, Nat.add_comm 1 (countForest (buildForest (renderChildren n) (c + 1)).1),
      List.range'_succ]
  · rw [h.2]
    omega
termination_by sizeOf n
decreasing_by exact sizeOf_renderChildren_lt n

theorem buildForest_ids_spec (l : List XmlNode) (c : Nat) :
    idsForest (buildForest l c).1 = List.range' c (countForest (buildForest l c).1) ∧
    (buildForest l c).2 = c + countForest (buildForest l c).1 := by
  cases l with
  | nil => simp [buildForest, idsForest, countForest, List.range']
  | cons x xs =>
    have h1 := buildTree_ids_spec x c
    have h2 := buildForest_ids_spec xs (buildTree x c).2
    simp only [buildForest, idsForest, countForest]
    constructor
    · rw [h1.1, h2.1, h1.2, range1_append]
    · rw [h2.2, h1.2]
      omega
termination_by sizeOf l
decreasing_by all_goals (simp; try omega)
end

/-- Claim C2: for every source tree, the renderer invoked with a fresh counter
assigns the `id` values `1, 2, …` in depth-first pre-order (children in
document order): the pre-order id list is exactly `range' 1 count`, hence
the ids are strictly increasing and unique, and the second component of the
return value is `1` plus the number of rendered nodes. -/
theorem claim2_ids_preorder_unique_increasing :
    ∀ n : XmlNode,
      idsPre (runRenderer n).1 = List.range' 1 (countR (runRenderer n).1) ∧
      List.Pairwise (· < ·) (idsPre (runRenderer n).1) ∧
      (idsPre (runRenderer n).1).Nodup ∧
      (runRenderer n).2 = 1 + countR (runRenderer n).1 := by
  intro n
  simp only [runRenderer]
  have h := buildTree_ids_spec n 1
  refine ⟨h.1, ?_, ?_, h.2⟩
  · rw [h.1]
    exact List.pairwise_lt_range' 1 _
  · rw [h.1]
    exact List.nodup_range' 1 _

/-! Section: Determinism of the renderer (claim C9) -/

mutual
theorem structIdentical_refl (r : RenderNode) : structIdentical r r = true := by
  cases r with
  | mk i l p x cs =>
    simp [structIdentical, structIdenticalList_refl cs]
termination_by sizeOf r
decreasing_by all_goals (simp; try omega)

theorem structIdenticalList_refl (l : List RenderNode) :
    structIdenticalList l l = true := by
  cases l with
  | nil => simp [structIdenticalList]
  | cons a as' =>
    simp [structIdenticalList, structIdentical_refl a, structIdenticalList_refl as']
termination_by sizeOf l
decreasing_by all_goals (simp; try omega)
end

/-- Claim C9: the renderer is a pure function of the parsed tree: running it
twice on the same tree (each run allocating a fresh counter) yields
structurally identical render trees — same ids, labels, property maps, raw
XML fragments and child ordering — and the same final counter value. -/
theorem claim9_renderer_deterministic :
    ∀ n : XmlNode,
      structIdentical (runRenderer n).1 (runRenderer n).1 = true ∧
      (runRenderer n).2 = (runRenderer n).2 :=
  fun _ => ⟨structIdentical_refl _, rfl⟩

/-- Value emitted for one `properties/property` entry: the text of a nested
`string` child when present, else the empty string (exactly the value
expression of `propertyListWrites`). -/
def propEntryValue (p : XmlNode) : String :=
  match findTag p "string" with
  | some s => s.text.getD ""
  | none => ""

theorem lookupProp_extractProps (n : XmlNode) (k : String) :
    lookupProp (extractProps n) k = lastWriteValue (propWrites n) k := by
  rw [extractProps_eq_writes, lookupProp_insertAll]
  cases hl : lastWriteValue (propWrites n) k <;> simp [hl, lookupProp_nil]

theorem lastWriteValue_append (ws1 ws2 : List (String × String)) (k : String) :
    lastWriteValue (ws1 ++ ws2) k =
      match lastWriteValue ws2 k with
      | some v => some v
      | none => lastWriteValue ws1 k := by
  induction ws1 with
  | nil =>
    simp only [List.nil_append]
    cases hl : lastWriteValue ws2 k <;> simp [lastWriteValue, hl]
  | cons a ws1 ih =>
    simp only [List.cons_append, lastWriteValue, List.append_eq]
    rw [ih]
    cases hl : lastWriteValue ws2 k <;>
      cases hw : lastWriteValue ws1 k <;> simp [hl, hw]

theorem lastWriteValue_none (ws : List (String × String)) (k : String)
    (h : ∀ q ∈ ws, q.1 ≠ k) : lastWriteValue ws k = none := by
  induction ws with
  | nil => rfl
  | cons a tl ih =>
    have ha : a.1 ≠ k := h a (by simp)
    have h' : ∀ q ∈ tl, q.1 ≠ k := fun q hq => h q (by simp [hq])
    simp [lastWriteValue, ih h', ha]

/-- Claim C10: for every element whose `properties` child contains a
`property` entry without a `name` attribute, the extractor still inserts an
entry into the flattened map under the empty-string key, with the nested
`string` child's text as value (`""` when that child is absent).  All such
unnamed entries write the same empty-string key, so only the last one's
value remains: whenever `p` is an unnamed entry and no later entry of the
`properties` list emits the empty key (in particular `p` is the last of
several unnamed entries), the final map's value at `""` is exactly `p`'s
value. -/
theorem claim10_unnamed_property_entries :
    ∀ (n pe : XmlNode) (ps1 ps2 : List XmlNode) (p : XmlNode),
      findTag n "properties" = some pe →
      findallTag pe "property" = ps1 ++ p :: ps2 →
      lookupAttr p "name" = none →
      (∀ q ∈ ps2, (lookupAttr q "name").getD "" ≠ "") →
      lookupProp (extractProps n) "" = some (propEntryValue p) := by
  intro n pe ps1 ps2 p hpe hsplit hname hlast
  rw [lookupProp_extractProps, propWrites, lastWriteValue_append]
  have hplw : propertyListWrites n =
      (ps1 ++ p :: ps2).map
        (fun q => ((lookupAttr q "name").getD "", propEntryValue q)) := by
    simp only [propertyListWrites, hpe, propEntryValue, hsplit]
  rw [hplw, List.map_append, List.map_cons, lastWriteValue_append]
  have hnone : lastWriteValue
      (ps2.map (fun q => ((lookupAttr q "name").getD "", propEntryValue q))) "" = none := by
    apply lastWriteValue_none
    intro q hq
    obtain ⟨q0, hq0, rfl⟩ := List.mem_map.mp hq
    exact hlast q0 hq0
  have htail : lastWriteValue
      (((lookupAttr p "name").getD "", propEntryValue p) ::
        ps2.map (fun q => ((lookupAttr q "name").getD "", propEntryValue q))) "" =
      some (propEntryValue p) := by
    simp [lastWriteValue, hnone, hname]
  rw [htail]

/-- Witness for C10: the general theorem applied to a concrete element with
two unnamed entries (texts `"a"`, `"b"`; only `"b"` remains) and to one with
an unnamed entry lacking a `string` child (value `""`). -/
theorem claim10_unnamed_property_entries_witness :
    lookupProp (extractProps (unnamedPropNode "a" "b")) "" = some "b" ∧
    lookupProp (extractProps unnamedNoString) "" = some "" := by
  constructor
  · exact claim10_unnamed_property_entries (unnamedPropNode "a" "b")
      (.mk "properties" [] none none
        [.mk "property" [] none none [.mk "string" [] (some "a") none []],
         .mk "property" [] none none [.mk "string" [] (some "b") none []]])
      [.mk "property" [] none none [.mk "string" [] (some "a") none []]] []
      (.mk "property" [] none none [.mk "string" [] (some "b") none []])
      rfl rfl rfl (by simp)
  · exact claim10_unnamed_property_entries unnamedNoString
      (.mk "properties" [] none none [.mk "property" [] none none []])
      [] [] (.mk "property" [] none none [])
      rfl rfl rfl (by simp)

/-! Section: Overlay mapping (claims C4 and C5) -/

/-- Claim C4: for a selected node whose flattened property map carries all four
`geometry_*` keys with integer-parsing values, the raw overlay rectangle is
`(propX - originX, propY - originY, propWidth, propHeight)`, the origin being
resolved from the first property map in document order exposing `geometry_x`
(with `(0,0)` fallback built into `resolveOrigin`); the drawn rectangle
scales each axis by `displayedSize / naturalSize`.  The stated example —
properties `(110, 210, 50, 20)`, origin `(100, 200)`, uniform 2x display —
gives raw `(10, 10, 50, 20)` and drawn `(20, 20, 100, 40)`. -/
theorem claim4_overlay_rectangle :
    (∀ (props : List (String × String)) (allNodes : List (List (String × String)))
        (sx sy sw sh : String) (px py pw ph : Int),
        lookupProp props "geometry_x" = some sx →
        lookupProp props "geometry_y" = some sy →
        lookupProp props "geometry_width" = some sw →
        lookupProp props "geometry_height" = some sh →
        jsParseInt sx = some px → jsParseInt sy = some py →
        jsParseInt sw = some pw → jsParseInt sh = some ph →
        updateElementOverlay props allNodes =
          some (some (px - (resolveOrigin allNodes).1),
                some (py - (resolveOrigin allNodes).2), some pw, some ph)) ∧
    updateElementOverlay exSelProps [exOriginProps, exSelProps] =
      some (some 10, some 10, some 50, some 20) ∧
    drawElementOverlay (some 10) (some 10) (some 50) (some 20) 800 400 600 300 =
      (some 20, some 20, some 100, some 40) := by
  refine ⟨?_, ?_, ?_⟩
  · intro props allNodes sx sy sw sh px py pw ph hx hy hw hh px' py' pw' ph'
    simp [updateElementOverlay, hx, hy, hw, hh, px', py', pw', ph']
  · rfl
  · simp [drawElementOverlay]
    norm_num

/-- Witness for C4: the general rectangle formula applied at the concrete
example input. -/
theorem claim4_overlay_rectangle_witness :
    updateElementOverlay exSelProps [exOriginProps, exSelProps] =
      some (some (110 - (resolveOrigin [exOriginProps, exSelProps]).1),
            some (210 - (resolveOrigin [exOriginProps, exSelProps]).2),
            some 50, some 20) :=
  claim4_overlay_rectangle.1 exSelProps [exOriginProps, exSelProps]
    "110" "210" "50" "20" 110 210 50 20 rfl rfl rfl rfl rfl rfl rfl rfl

/-- Claim C5 counterexample: a node whose map contains all four geometry keys
but whose `geometry_width` value `"abc"` does not parse as an integer still
produces an overlay (`updateElementOverlay` checks presence only, and the
`NaN` from `parseInt` flows into the drawn rectangle), contradicting the
claim that no overlay at all is shown in that case. -/
theorem claim5_overlay_counterexample :
    jsParseInt "abc" = none ∧
    updateElementOverlay badWidthProps [badWidthProps] =
      some (some 0, some 0, none, some 20) ∧
    (updateElementOverlay badWidthProps [badWidthProps]).isSome = true := by
  exact ⟨rfl, rfl, rfl⟩

/-- Claim C5 amended: an overlay is rendered for the selected node exactly
when all four `geometry_*` keys are present in its flattened property map;
presence, not integer parsability, is what is checked, and a present but
non-integer value yields an overlay whose corresponding coordinate is `NaN`. -/
theorem claim5_overlay_presence_only :
    ∀ (props : List (String × String)) (allNodes : List (List (String × String))),
      (updateElementOverlay props allNodes).isSome =
        ((lookupProp props "geometry_x").isSome &&
         (lookupProp props "geometry_y").isSome &&
         (lookupProp props "geometry_width").isSome &&
         (lookupProp props "geometry_height").isSome) := by
  intro props allNodes
  unfold updateElementOverlay
  cases lookupProp props "geometry_x" <;>
    cases lookupProp props "geometry_y" <;>
      cases lookupProp props "geometry_width" <;>
        cases lookupProp props "geometry_height" <;> simp

/-! Section: Loader decoding (claim C6) -/

/-- Claim C6 counterexample: a file whose first byte is invalid UTF-8 (0xFF)
followed by a perfectly well-formed document.  The loader's strict decode
fails, so the load returns `None` with no XML parsing involved — whereas
replace-mode decoding (the behavior the claim describes) yields a document
that strips to exactly the well-formed XML text. -/
theorem claim6_loader_counterexample :
    parseObjectXmlRead badUtf8File = none ∧
    stripPreamble (specReplaceDecode badUtf8File) = "<ui></ui>".toList := by
  exact ⟨rfl, rfl⟩

/-- Claim C6 amended: the loader reads the file with strict UTF-8 decoding:
any malformed byte sequence makes the read fail, and the resulting decode
error is caught by the same handler as XML parse errors, so the load returns
`None` (only the later raw-XML display read uses replace mode). -/
theorem claim6_loader_strict_decode :
    ∀ file : List Nat, utf8DecodeStrict file = none → parseObjectXmlRead file = none := by
  intro file h
  simp [parseObjectXmlRead, h]

/-- Witness for the amended C6 at the one-byte file `[0xFF]`. -/
theorem claim6_loader_strict_decode_witness :
    utf8DecodeStrict [255] = none ∧ parseObjectXmlRead [255] = none :=
  ⟨rfl, claim6_loader_strict_decode [255] rfl⟩

/-! Section: Asset loading (claim C7) -/

/-- Claim C7: in `main_app.py`, where `load_asset` is defined, a missing asset
file makes the generation return the error page
`<h1>Error: Asset file not found: <path></h1>` to the caller instead of
raising: evaluated here on an empty file system.  (The claim speaks of every
variant; `squish_xml_html_gen.py` contains the same call sites but no
definition of `load_asset` at all, so there the call raises `NameError`,
which its `except FileNotFoundError` does not catch — a code bug, recorded
in the results.) -/
theorem claim7_missing_asset_error_page :
    generateHtmlFromXmlAssets (fun _ => none) "." "[]" "t" "tree" "img" "raw" =
      "<h1>Error: Asset file not found: ./viewer_template.html</h1>" := rfl

/-! Section: Round-trip of the serialized fragment (claim C8) -/

theorem takeWhile_append_delim (p : Char → Bool) (name : List Char) (d : Char)
    (rest : List Char) (h : ∀ c ∈ name, p c = true) (hd : p d = false) :
    (name ++ d :: rest).takeWhile p = name ∧
    (name ++ d :: rest).dropWhile p = d :: rest := by
  induction name with
  | nil => simp [List.takeWhile_cons, List.dropWhile_cons, hd]
  | cons a tl ih =>
    have ha : p a = true := h a (by simp)
    have h' : ∀ c ∈ tl, p c = true := fun c hc => h c (by simp [hc])
    have := ih h'
    simp [List.takeWhile_cons, List.dropWhile_cons, ha, this.1, this.2]

theorem escChar_no_quote (c : Char) : ∀ d ∈ escChar c, d ≠ '"' := by
  by_cases h1 : c = '&'
  · subst h1; decide
  by_cases h2 : c = '<'
  · subst h2; decide
  by_cases h3 : c = '>'
  · subst h3; decide
  by_cases h4 : c = '"'
  · subst h4; decide
  by_cases h5 : c = '\r'
  · subst h5; decide
  by_cases h6 : c = '\n'
  · subst h6; decide
  by_cases h7 : c = '\t'
  · subst h7; decide
  simp [escChar, h1, h2, h3, h4, h5, h6, h7]

theorem escAttrib_no_quote (v : List Char) : ∀ d ∈ escAttrib v, d ≠ '"' := by
  induction v with
  | nil => simp [escAttrib]
  | cons c r ih =>
    intro d hd
    simp only [escAttrib] at hd
    rcases List.mem_append.mp hd with h | h
    · exact escChar_no_quote c d h
    · exact ih d h

theorem escAttrib_pred (v : List Char) : ∀ d ∈ escAttrib v, (!(d == '"')) = true := by
  intro d hd
  simpa using escAttrib_no_quote v d hd

theorem unesc_entity_step (s : Char) (pat : List Char) (X : List Char)
    (hm : matchEntity (pat ++ X) = some (s, pat.length)) :
    unescAux ('&' :: (pat ++ X)) = s :: unescAux X := by
  rw [unescAux, if_pos rfl, hm]
  simp [List.drop_left]

theorem unescAux_escAttrib (v : List Char) : unescAux (escAttrib v) = v := by
  induction v with
  | nil => simp [escAttrib, unescAux]
  | cons c r ih =>
    simp only [escAttrib]
    by_cases h1 : c = '&'
    · subst h1
      rw [show escChar '&' ++ escAttrib r = '&' :: (['a', 'm', 'p', ';'] ++ escAttrib r)
          from rfl,
        unesc_entity_step '&' ['a', 'm', 'p', ';'] (escAttrib r) rfl, ih]
    by_cases h2 : c = '<'
    · subst h2
      rw [show escChar '<' ++ escAttrib r = '&' :: (['l', 't', ';'] ++ escAttrib r) from rfl,
        unesc_entity_step '<' ['l', 't', ';'] (escAttrib r) rfl, ih]
    by_cases h3 : c = '>'
    · subst h3
      rw [show escChar '>' ++ escAttrib r = '&' :: (['g', 't', ';'] ++ escAttrib r) from rfl,
        unesc_entity_step '>' ['g', 't', ';'] (escAttrib r) rfl, ih]
    by_cases h4 : c = '"'
    · subst h4
      rw [show escChar '"' ++ escAttrib r = '&' :: (['q', 'u', 'o', 't', ';'] ++ escAttrib r)
          from rfl,
        unesc_entity_step '"' ['q', 'u', 'o', 't', ';'] (escAttrib r) rfl, ih]
    by_cases h5 : c = '\r'
    · subst h5
      rw [show escChar '\r' ++ escAttrib r = '&' :: (['#', '1', '3', ';'] ++ escAttrib r)
          from by simp [escChar],
        unesc_entity_step '\r' ['#', '1', '3', ';'] (escAttrib r) rfl, ih]
    by_cases h6 : c = '\n'
    · subst h6
      rw [show escChar '\n' ++ escAttrib r = '&' :: (['#', '1', '0', ';'] ++ escAttrib r)
          from by simp [escChar],
        unesc_entity_step '\n' ['#', '1', '0', ';'] (escAttrib r) rfl, ih]
    by_cases h7 : c = '\t'
    · subst h7
      rw [show escChar '\t' ++ escAttrib r = '&' :: (['#', '0', '9', ';'] ++ escAttrib r)
          from by simp [escChar],
        unesc_entity_step '\t' ['#', '0', '9', ';'] (escAttrib r) rfl, ih]
    rw [show escChar c = [c] from by simp [escChar, h1, h2, h3, h4, h5, h6, h7],
      List.cons_append, List.nil_append, unescAux, if_neg h1, ih]

theorem serializeAttrs_length_ge (attrs : List (List Char × List Char)) :
    attrs.length ≤ (serializeAttrs attrs).length := by
  induction attrs with
  | nil => simp [serializeAttrs]
  | cons a tl ih =>
    obtain ⟨k, v⟩ := a
    simp only [serializeAttrs, List.length_cons, List.length_append]
    omega

theorem parseAttrsF_serializeAttrs (attrs : List (List Char × List Char)) :
    ∀ (fuel : Nat) (rest : List Char),
      (∀ p ∈ attrs, nameOk p.1) →
      ((∃ X, rest = ' ' :: '/' :: X) ∨ (∃ X, rest = '>' :: X)) →
      parseAttrsF (2 * attrs.length + fuel + 2) (serializeAttrs attrs ++ rest) =
        some attrs := by
  induction attrs with
  | nil =>
    intro fuel rest _ hrest
    rw [show 2 * ([] : List (List Char × List Char)).length + fuel + 2 = (fuel + 1) + 1
        from by simp]
    rcases hrest with ⟨X, rfl⟩ | ⟨X, rfl⟩
    · simp [serializeAttrs, parseAttrsF]
    · simp [serializeAttrs, parseAttrsF]
  | cons a tl ih =>
    intro fuel rest hnames hrest
    obtain ⟨k, v⟩ := a
    have hk : nameOk (k, v).1 := hnames (k, v) (by simp)
    obtain ⟨hkne, hkchars⟩ := hk
    cases k with
    | nil => exact absurd rfl hkne
    | cons kc ktl =>
      have hkc := hkchars kc (by simp)
      rw [show 2 * (((kc :: ktl, v) :: tl).length) + fuel + 2
          = (2 * tl.length + fuel + 3) + 1 from by simp [List.length_cons]; omega]
      simp only [serializeAttrs, List.cons_append, List.append_assoc]
      rw [parseAttrsF]
      rw [if_pos rfl]
      rw [show 2 * tl.length + fuel + 3 = (2 * tl.length + fuel + 2) + 1 from by omega]
      rw [parseAttrsF]
      rw [if_neg hkc.1, if_neg (by
        rintro (h | h)
        · exact hkc.2.2.1 h
        · exact hkc.2.1 h)]
      have hsplit1 := takeWhile_append_delim (fun ch => !(ch == '=')) (kc :: ktl) '='
        ('"' :: (escAttrib v ++ '"' :: (serializeAttrs tl ++ rest)))
        (fun c hc => by simpa using (hkchars c hc).2.2.2.1)
        (by simp)
      rw [← List.cons_append]
      rw [hsplit1.2]
      have hsplit2 := takeWhile_append_delim (fun ch => !(ch == '"')) (escAttrib v) '"'
        (serializeAttrs tl ++ rest) (escAttrib_pred v) (by simp)
      simp only [hsplit2.2, hsplit1.1, hsplit2.1, unescAux_escAttrib,
        ih fuel rest (fun p hp => hnames p (by simp [hp])) hrest, Option.map_some']

theorem parseOpenTag_serialized (tag : List Char) (attrs : List (List Char × List Char))
    (trailer : List Char) (htag : nameOk tag)
    (hattrs : ∀ p ∈ attrs, nameOk p.1)
    (htr : (∃ X, trailer = ' ' :: '/' :: X) ∨ (∃ X, trailer = '>' :: X)) :
    parseOpenTag ('<' :: (tag ++ (serializeAttrs attrs ++ trailer))) = some (tag, attrs) := by
  obtain ⟨htagne, htagchars⟩ := htag
  have hhead : ∃ d rest2, serializeAttrs attrs ++ trailer = d :: rest2 ∧
      (!(nameDelim d)) = false := by
    cases attrs with
    | nil =>
      rcases htr with ⟨X, rfl⟩ | ⟨X, rfl⟩
      · exact ⟨' ', '/' :: X, by simp [serializeAttrs], by simp [nameDelim]⟩
      · exact ⟨'>', X, by simp [serializeAttrs], by simp [nameDelim]⟩
    | cons a atl =>
      obtain ⟨k, v⟩ := a
      exact ⟨' ', k ++ '=' :: '"' :: (escAttrib v ++ '"' :: (serializeAttrs atl ++ trailer)),
        by simp [serializeAttrs], by simp [nameDelim]⟩
  obtain ⟨d, rest2, heq, hd⟩ := hhead
  have hsplit := takeWhile_append_delim (fun c => !(nameDelim c)) tag d rest2
    (fun c hc => by
      have h := htagchars c hc
      simp [nameDelim, h.1, h.2.1, h.2.2.1])
    hd
  have hne : tag.isEmpty = false := by
    cases tag with
    | nil => exact absurd rfl htagne
    | cons a b => rfl
  simp only [parseOpenTag]
  rw [heq, hsplit.1, hsplit.2, ← heq]
  rw [if_neg (by simp [hne])]
  have hlen : attrs.length ≤ (serializeAttrs attrs ++ trailer).length := by
    have := serializeAttrs_length_ge attrs
    simp only [List.length_append]
    omega
  obtain ⟨f, hf⟩ : ∃ f, 2 * (serializeAttrs attrs ++ trailer).length + 2
      = 2 * attrs.length + f + 2 :=
    ⟨2 * (serializeAttrs attrs ++ trailer).length - 2 * attrs.length, by omega⟩
  rw [parseAttrs, hf, parseAttrsF_serializeAttrs attrs f trailer hattrs htr]
  rfl

/-- Every serialization has the shape `'<' :: tag ++ attrs ++ trailer` where
the trailer opens with `" />"` (short empty-element form) or `">"`. -/
theorem serializeElem_shape (n : XmlNode) :
    ∃ trailer, serializeElem n =
      '<' :: (n.tag.toList ++ (serializeAttrs (attribChars n) ++ trailer)) ∧
      ((∃ X, trailer = ' ' :: '/' :: X) ∨ (∃ X, trailer = '>' :: X)) := by
  rw [serializeElem]
  by_cases h : truthyText n.text = false ∧ n.children.isEmpty = true
  · refine ⟨[' ', '/', '>'] ++ escCdataOpt n.tail, ?_, Or.inl ⟨'>' :: escCdataOpt n.tail, rfl⟩⟩
    rw [if_pos h]
    simp [List.append_assoc]
  · refine ⟨('>' :: (escCdataOpt n.text ++ serializeForest n.children ++
      ('<' :: '/' :: n.tag.toList ++ ['>']))) ++ escCdataOpt n.tail, ?_,
      Or.inr ⟨_, rfl⟩⟩
    rw [if_neg h]
    simp [List.append_assoc]

/-- Claim C8: the `rawXml` fragment stored on a render node is the `ET.tostring`
serialization of its source element, and re-parsing that fragment recovers
exactly the source element's tag and (ordered) attribute map.  The
hypotheses say that tag and attribute names are valid XML names — true of
any element produced by an XML parse. -/
theorem claim8_rawxml_roundtrip :
    ∀ (n : XmlNode) (c : Nat),
      nameOk n.tag.toList →
      (∀ p ∈ attribChars n, nameOk p.1) →
      (buildTree n c).1.rawXml = serializeElem n ∧
      parseOpenTag ((buildTree n c).1.rawXml) = some (n.tag.toList, attribChars n) := by
  intro n c htag hattrs
  have hraw : (buildTree n c).1.rawXml = serializeElem n := by
    simp [buildTree, RenderNode.rawXml]
  refine ⟨hraw, ?_⟩
  rw [hraw]
  obtain ⟨trailer, hs, htr⟩ := serializeElem_shape n
  rw [hs]
  exact parseOpenTag_serialized _ _ _ ⟨htag.1, htag.2⟩ hattrs htr

/-- Witness for C8 at a concrete element whose attribute values exercise
escaping (`&`, `"`, `<`, `>`). -/
theorem claim8_rawxml_roundtrip_witness :
    nameOk ("element".toList) ∧
    parseOpenTag ((buildTree rtNode 1).1.rawXml) =
      some ("element".toList, attribChars rtNode) := by
  refine ⟨by decide, (claim8_rawxml_roundtrip rtNode 1 (by decide) (by decide)).2⟩

end SquishViewer
